import Mathlib

/-!
Shallow embedding of the task-orchestration core of the suruga-seiki-ew51-api
repository, together with theorems settling the frozen claims about it.

Embedding conventions:
* `datetime.utcnow()` is modelled by a monotone `Nat` clock carried in the
  registry state; every operation that records a timestamp reads the clock and
  advances it, so successive timestamps are strictly increasing.
* `uuid.uuid4()` is modelled by a fresh-id counter `next_id` (uuids are assumed
  fresh, which is what the code relies on).
* Python `dict[str, Task]` keyed by `task.task_id` is modelled as a `List Task`
  with insertion-order dict semantics (replace in place if the key is present,
  append otherwise); `dict.update` on the progress dict is a per-key
  last-write-wins merge that keeps insertion order.
* Python exceptions raised by registry methods are modelled by returning the
  unchanged state paired with an `Except` error; the source raises before any
  mutation on every error path, which the definitions mirror.
* `Python`'s `sorted` (a stable sort) is modelled by `List.insertionSort`,
  which is likewise stable.
* The blocking poll loops of `controller_manager.py` are modelled as functions
  of iteration-indexed external observations (cancellation flag, hardware
  status); wall-clock elapsed time is abstracted to the iteration counter, and
  the hardware calls made by an iteration are recorded in an event trace.
-/

namespace EW51

/-- `TaskStatus` from `app/task_manager.py`. -/
inductive TaskStatus where
  | pending
  | running
  | stopping
  | completed
  | failed
  | cancelled
  deriving DecidableEq, Repr

/-- `OperationType` from `app/task_manager.py`. -/
inductive OperationType where
  | angle_adjustment
  | flat_alignment
  | focus_alignment
  | profile_measurement
  | axis_movement
  deriving DecidableEq, Repr

/-- The statuses `create_task` treats as "already active" (its conflict list). -/
def activeStatuses : List TaskStatus :=
  [TaskStatus.pending, TaskStatus.running, TaskStatus.stopping]

/-- The terminal statuses `[COMPLETED, FAILED, CANCELLED]` as listed in
`update_status` and `clear_current_task`. -/
def terminalStatuses : List TaskStatus :=
  [TaskStatus.completed, TaskStatus.failed, TaskStatus.cancelled]

/-- The `Task` dataclass from `app/task_manager.py`.  `result` and
`request_data` dictionaries are abstracted to `String` payloads, the progress
dict to an insertion-ordered association list, and `asyncio.Event` to a `Bool`
(`is_set`). -/
structure Task where
  task_id : Nat
  operation_type : OperationType
  status : TaskStatus := TaskStatus.pending
  progress : List (String × String) := []
  result : Option String := none
  error : Option String := none
  created_at : Nat
  started_at : Option Nat := none
  completed_at : Option Nat := none
  cancellation_event : Bool := false
  request_data : Option String := none
  deriving DecidableEq, Repr

/-- The mutable state of the singleton `TaskManager`: the current-task slot,
the history dict, and the capacity, plus the modelling counters for
`uuid.uuid4()` and `datetime.utcnow()`. -/
structure TaskManager where
  current_task : Option Task := none
  task_history : List Task := []
  max_history_size : Nat := 100
  next_id : Nat := 0
  clock : Nat := 0
  deriving DecidableEq, Repr

/-- Errors raised by the registry: `RuntimeError` on create (the spec's
`Conflict`), `ValueError` for an unknown id (`NotFound`) and for cancelling a
non-cancellable task (`InvalidState`). -/
inductive RegErr where
  | conflict
  | notFound
  | invalidState
  deriving DecidableEq, Repr

/-- Dict write `d[k] = v` on an insertion-ordered `Task` dict keyed by
`task_id`: replace in place if present, else append. -/
def dictInsert (h : List Task) (t : Task) : List Task :=
  if h.any (fun u => u.task_id = t.task_id) then
    h.map (fun u => if u.task_id = t.task_id then t else u)
  else
    h ++ [t]

/-- Dict lookup `d.get(task_id)`. -/
def dictGet (h : List Task) (id : Nat) : Option Task :=
  h.find? (fun u => u.task_id = id)

/-- `dict.update` for the progress dict: per-key last-write-wins, existing keys
keep their position, new keys are appended in patch order. -/
def progUpdate (d : List (String × String)) (patch : List (String × String)) :
    List (String × String) :=
  patch.foldl
    (fun acc kv =>
      if acc.any (fun p => p.1 = kv.1) then
        acc.map (fun p => if p.1 = kv.1 then kv else p)
      else
        acc ++ [kv])
    d

/-- `TaskManager.get_task`: the current task if its id matches, else the
history dict. -/
def get_task (m : TaskManager) (id : Nat) : Option Task :=
  match m.current_task with
  | some t => if t.task_id = id then some t else dictGet m.task_history id
  | none => dictGet m.task_history id

/-- Apply an in-place mutation of the task object with the given id.  In the
source the task is a shared object referenced both by `_current_task` and by
the history dict, so a field assignment is visible through both references;
the embedding applies the update to both views. -/
def mutateTask (m : TaskManager) (id : Nat) (f : Task → Task) : TaskManager :=
  { m with
    current_task :=
      m.current_task.map (fun t => if t.task_id = id then f t else t)
    task_history :=
      m.task_history.map (fun t => if t.task_id = id then f t else t) }

/-- Sort key used by `_add_to_history`'s pruning (`key=lambda t: t.created_at`). -/
def createdLe (a b : Task) : Prop :=
  a.created_at ≤ b.created_at

instance : DecidableRel createdLe := fun a b =>
  inferInstanceAs (Decidable (a.created_at ≤ b.created_at))

instance : IsTotal Task createdLe :=
  ⟨fun a b => Nat.le_total a.created_at b.created_at⟩

instance : IsTrans Task createdLe :=
  ⟨fun _ _ _ h h' => Nat.le_trans h h'⟩

/-- `TaskManager._add_to_history`: insert into the dict, then, if the dict has
grown beyond capacity, delete the oldest entries by `created_at` (stable sort,
then drop from the front) until the size is back at capacity. -/
def add_to_history (m : TaskManager) (t : Task) : TaskManager :=
  let h := dictInsert m.task_history t
  if h.length > m.max_history_size then
    let sorted_tasks := List.insertionSort createdLe h
    let tasks_to_remove := sorted_tasks.take (sorted_tasks.length - m.max_history_size)
    { m with
      task_history :=
        h.filter (fun u => !(tasks_to_remove.any (fun v => v.task_id = u.task_id))) }
  else
    { m with task_history := h }

/-- The `Task(...)` construction inside `create_task`: a fresh id, the given
operation type and request data, creation stamped with the current clock, and
all remaining fields at their dataclass defaults (Pending, empty progress, no
result, no error, cancellation event clear). -/
def newTask (m : TaskManager) (op : OperationType) (d : Option String) : Task :=
  { task_id := m.next_id, operation_type := op, created_at := m.clock,
    request_data := d }

/-- `TaskManager.create_task`: conflict if a current task exists with status in
`[PENDING, RUNNING, STOPPING]`; otherwise allocate a fresh Pending task, store
it as current and insert it into history. -/
def create_task (m : TaskManager) (op : OperationType) (d : Option String) :
    TaskManager × Except RegErr Task :=
  match m.current_task with
  | some t =>
    if t.status ∈ activeStatuses then
      (m, Except.error RegErr.conflict)
    else
      let task := newTask m op d
      let m' := { m with current_task := some task, next_id := m.next_id + 1,
                         clock := m.clock + 1 }
      (add_to_history m' task, Except.ok task)
  | none =>
    let task := newTask m op d
    let m' := { m with current_task := some task, next_id := m.next_id + 1,
                       clock := m.clock + 1 }
    (add_to_history m' task, Except.ok task)

/-- The field assignments of `TaskManager.update_status` on the task object:
set the status unconditionally, then stamp `started_at` on a first entry into
Running, or `completed_at` on entry into a terminal status. -/
def statusUpd (clk : Nat) (s : TaskStatus) (t : Task) : Task :=
  let t := { t with status := s }
  if s = TaskStatus.running ∧ t.started_at = none then
    { t with started_at := some clk }
  else if s ∈ terminalStatuses then
    { t with completed_at := some clk }
  else t

/-- `TaskManager.update_status`. -/
def update_status (m : TaskManager) (id : Nat) (s : TaskStatus) :
    TaskManager × Except RegErr Unit :=
  match get_task m id with
  | none => (m, Except.error RegErr.notFound)
  | some _ =>
    let m' := mutateTask m id (statusUpd m.clock s)
    (if s = TaskStatus.running ∨ s ∈ terminalStatuses then
      { m' with clock := m.clock + 1 } else m', Except.ok ())

/-- `TaskManager.update_progress`: merge the patch into the progress dict. -/
def update_progress (m : TaskManager) (id : Nat)
    (patch : List (String × String)) : TaskManager × Except RegErr Unit :=
  match get_task m id with
  | none => (m, Except.error RegErr.notFound)
  | some _ =>
    (mutateTask m id (fun t => { t with progress := progUpdate t.progress patch }),
     Except.ok ())

/-- The field assignments of `TaskManager.complete_task` on the task object. -/
def completeUpd (clk : Nat) (res : String) (t : Task) : Task :=
  { t with status := TaskStatus.completed, result := some res,
           completed_at := some clk }

/-- `TaskManager.complete_task`: unconditionally set status Completed, the
result, and `completed_at`. -/
def complete_task (m : TaskManager) (id : Nat) (res : String) :
    TaskManager × Except RegErr Unit :=
  match get_task m id with
  | none => (m, Except.error RegErr.notFound)
  | some _ =>
    let m' := mutateTask m id (completeUpd m.clock res)
    ({ m' with clock := m.clock + 1 }, Except.ok ())

/-- The field assignments of `TaskManager.fail_task` on the task object. -/
def failUpd (clk : Nat) (err : String) (t : Task) : Task :=
  { t with status := TaskStatus.failed, error := some err,
           completed_at := some clk }

/-- `TaskManager.fail_task`: unconditionally set status Failed, the error
message, and `completed_at`. -/
def fail_task (m : TaskManager) (id : Nat) (err : String) :
    TaskManager × Except RegErr Unit :=
  match get_task m id with
  | none => (m, Except.error RegErr.notFound)
  | some _ =>
    let m' := mutateTask m id (failUpd m.clock err)
    ({ m' with clock := m.clock + 1 }, Except.ok ())

/-- The field assignments of `TaskManager.cancel_task` on the task object:
arm the cancellation event, then set the status to Stopping. -/
def cancelUpd (t : Task) : Task :=
  { t with cancellation_event := true, status := TaskStatus.stopping }

/-- `TaskManager.cancel_task`: `NotFound` for an unknown id, `InvalidState`
unless the status is Pending or Running; otherwise set the cancellation event
and move the status to Stopping. -/
def cancel_task (m : TaskManager) (id : Nat) : TaskManager × Except RegErr Unit :=
  match get_task m id with
  | none => (m, Except.error RegErr.notFound)
  | some t =>
    if t.status ∈ [TaskStatus.pending, TaskStatus.running] then
      (mutateTask m id cancelUpd, Except.ok ())
    else
      (m, Except.error RegErr.invalidState)

/-- `TaskManager.clear_current_task`: drop the current-task pointer only when
the current task is in a terminal state. -/
def clear_current_task (m : TaskManager) : TaskManager :=
  match m.current_task with
  | some t =>
    if t.status ∈ terminalStatuses then { m with current_task := none } else m
  | none => m

/-- Outcome of one call of an operation body (`execute_operation`) as observed
by `BaseTaskExecutor.execute`: a returned result dict, an
`OperationCancelledException`, or any other exception with its `str(e)`. -/
inductive OpOutcome where
  | success (res : String)
  | cancelled (msg : String)
  | failure (msg : String)
  deriving DecidableEq, Repr

/-- `BaseTaskExecutor.execute` from `app/tasks/base_task.py`: look the task up
(raising `ValueError` outside the `try` block if absent), mark it Running and
broadcast a started event, run the body, then on success `complete_task`, on
`OperationCancelledException` move to Cancelled, on any other exception
`fail_task` — in the latter two cases returning `None` instead of re-raising —
and in the `finally` block `clear_current_task`.  The returned `Except` is the
exception behaviour seen by the caller. -/
def execute (m : TaskManager) (id : Nat) (body : OpOutcome) :
    TaskManager × Except RegErr (Option String) :=
  match get_task m id with
  | none => (m, Except.error RegErr.notFound)
  | some _ =>
    let m1 := (update_status m id TaskStatus.running).1
    let m2 := (update_progress m1 id [("message", "Task execution started")]).1
    match body with
    | OpOutcome.success res =>
      let m3 := (complete_task m2 id res).1
      let m4 := (update_progress m3 id
        [("message", "Task completed successfully")]).1
      (clear_current_task m4, Except.ok (some res))
    | OpOutcome.cancelled _ =>
      let m3 := (update_status m2 id TaskStatus.cancelled).1
      let m4 := (update_progress m3 id [("message", "Task cancelled")]).1
      (clear_current_task m4, Except.ok none)
    | OpOutcome.failure msg =>
      let m3 := (fail_task m2 id msg).1
      let m4 := (update_progress m3 id
        [("message", "Task failed: " ++ msg)]).1
      (clear_current_task m4, Except.ok none)

/-- Hardware calls a poll-loop iteration can make, recorded as a trace:
`stopCall` is `axis.Stop()` / `angle_adjustment.Stop()`, `statusQuery` is
`axis.IsMoving()` / `angle_adjustment.GetStatus()`, `posQuery` is a position /
signal readback. -/
inductive HwEvent where
  | stopCall
  | statusQuery
  | posQuery
  deriving DecidableEq, Repr

/-- Result of the blocking body of `move_absolute_async`: either the success
dict or a raised exception with its message. -/
inductive MoveRes where
  | ok
  | raised (msg : String)
  deriving DecidableEq, Repr

/-- The poll loop of `SurugaSeikiController.move_absolute_async`
(`controller_manager.py`).  `cancel i` is the value of
`cancellation_event.is_set()` and `moving i` the value of `axis.IsMoving()`
at iteration `i`; `maxIter` abstracts the 60 s wall-clock budget into an
iteration count (`maxIter < i` models `time.time() - start_time > timeout`).
Each iteration checks cancellation first (issuing `Stop()`, settling and
raising, with no hardware query, when it is set); otherwise it queries
motion state and position, returns after a settling re-read when motion has
stopped, and on timeout issues `Stop()` and raises. -/
def move_absolute_loop (cancel moving : Nat → Bool) (maxIter : Nat) (i : Nat) :
    MoveRes × List HwEvent :=
  if cancel i then
    (MoveRes.raised "Movement cancelled by user", [HwEvent.stopCall])
  else if moving i = false then
    (MoveRes.ok, [HwEvent.statusQuery, HwEvent.posQuery, HwEvent.posQuery])
  else if h : maxIter < i then
    (MoveRes.raised "Movement timed out after 60s",
     [HwEvent.statusQuery, HwEvent.posQuery, HwEvent.stopCall])
  else
    let rest := move_absolute_loop cancel moving maxIter (i + 1)
    (rest.1, HwEvent.statusQuery :: HwEvent.posQuery :: rest.2)
termination_by maxIter + 1 - i
decreasing_by omega

/-- `angle_adjustment.GetStatus()` as polled by
`execute_angle_adjustment_async`: still `Adjusting`, `Success`, or a named
failure status. -/
inductive AdjStatus where
  | adjusting
  | success
  | errorStatus (code : String)
  deriving DecidableEq, Repr

/-- The fields of `AngleAdjustmentResponse` that the task layer inspects. -/
structure AdjResponse where
  success : Bool
  status_code : String
  error_message : Option String
  deriving DecidableEq, Repr

/-- The poll loop of `SurugaSeikiController.execute_angle_adjustment_async`
(`controller_manager.py`).  Cancellation is checked first: if set, `Stop()` is
issued, the loop settles and returns a `Cancelled` response (it does not
raise).  Otherwise the status is queried; `Success` and named failure statuses
return immediately; on timeout the loop returns a `Timeout` response — without
issuing `Stop()`, exactly as in the source. -/
def angle_adjustment_loop (cancel : Nat → Bool) (hw : Nat → AdjStatus)
    (maxIter : Nat) (i : Nat) : AdjResponse × List HwEvent :=
  if cancel i then
    ({ success := false, status_code := "Cancelled",
       error_message := some "Angle adjustment was cancelled" },
     [HwEvent.stopCall])
  else
    match hw i with
    | AdjStatus.success =>
      ({ success := true, status_code := "Success", error_message := none },
       [HwEvent.statusQuery, HwEvent.posQuery])
    | AdjStatus.errorStatus c =>
      ({ success := false, status_code := c, error_message := some c },
       [HwEvent.statusQuery])
    | AdjStatus.adjusting =>
      if h : maxIter < i then
        ({ success := false, status_code := "Timeout",
           error_message := some "Operation timed out" },
         [HwEvent.statusQuery])
      else
        let rest := angle_adjustment_loop cancel hw maxIter (i + 1)
        (rest.1, HwEvent.statusQuery :: rest.2)
termination_by maxIter + 1 - i
decreasing_by omega

/-- `MotionTaskExecutor.execute_operation` (`app/tasks/motion_task.py`) around
the controller call: an exception from the movement is re-raised as
`OperationCancelledException` when the task's cancellation event is set, and
re-raised unchanged otherwise; a result dict with `success` true is returned
(the loop model's `MoveRes.ok` is such a dict). -/
def motion_outcome (cancelSet : Bool) (res : MoveRes) : OpOutcome :=
  match res with
  | MoveRes.ok => OpOutcome.success "move_result"
  | MoveRes.raised msg =>
    if cancelSet then OpOutcome.cancelled ("Movement was cancelled: " ++ msg)
    else OpOutcome.failure msg

/-- `AngleAdjustmentTaskExecutor.execute_operation`
(`app/tasks/angle_adjustment_task.py`): a `None` result raises
`OperationCancelledException` when the cancellation event is set and a generic
exception otherwise; a response with `success` false raises a generic
exception carrying `error_message` (there is no cancellation check on this
path); a successful response is returned. -/
def angle_adjustment_outcome (cancelSet : Bool) (res : Option AdjResponse) :
    OpOutcome :=
  match res with
  | none =>
    if cancelSet then OpOutcome.cancelled "Angle adjustment was cancelled"
    else OpOutcome.failure "Angle adjustment returned None (unknown error)"
  | some r =>
    if r.success then OpOutcome.success "angle_adjustment_result"
    else OpOutcome.failure
      (r.error_message.getD ("Angle adjustment failed with status: " ++ r.status_code))

/-- The registry operations, as a syntax for reasoning about arbitrary
operation sequences. -/
inductive RegOp where
  | createOp (op : OperationType) (d : Option String)
  | statusOp (id : Nat) (s : TaskStatus)
  | progressOp (id : Nat) (patch : List (String × String))
  | completeOp (id : Nat) (res : String)
  | failOp (id : Nat) (err : String)
  | cancelOp (id : Nat)
  | clearOp
  deriving DecidableEq, Repr

/-- Apply one registry operation, keeping the state (a raised error leaves the
state unchanged, as in the source). -/
def applyOp (m : TaskManager) : RegOp → TaskManager
  | RegOp.createOp op d => (create_task m op d).1
  | RegOp.statusOp id s => (update_status m id s).1
  | RegOp.progressOp id patch => (update_progress m id patch).1
  | RegOp.completeOp id res => (complete_task m id res).1
  | RegOp.failOp id err => (fail_task m id err).1
  | RegOp.cancelOp id => (cancel_task m id).1
  | RegOp.clearOp => clear_current_task m

/-- Apply a sequence of registry operations left to right. -/
def applyOps (m : TaskManager) (ops : List RegOp) : TaskManager :=
  ops.foldl applyOp m

/-- Well-formedness of a registry state; every state reachable from the empty
registry satisfies it: the capacity is positive, the history is within
capacity, ids and creation stamps are unique, and the modelling counters
dominate the stored ids and stamps. -/
def Wf (m : TaskManager) : Prop :=
  1 ≤ m.max_history_size ∧
  m.task_history.length ≤ m.max_history_size ∧
  (m.task_history.map Task.task_id).Nodup ∧
  (m.task_history.map Task.created_at).Nodup ∧
  (∀ u ∈ m.task_history, u.created_at < m.clock) ∧
  (∀ u ∈ m.task_history, u.task_id < m.next_id)

instance (m : TaskManager) : Decidable (Wf m) := by
  unfold Wf; infer_instance

/-- Every stored task with the given id has `result` unset (holds both for the
history dict and for the current-task slot). -/
def ResultFree (m : TaskManager) (id : Nat) : Prop :=
  (∀ u ∈ m.task_history, u.task_id = id → u.result = none) ∧
  (∀ u, m.current_task = some u → u.task_id = id → u.result = none)

/-- Every stored task with the given id has `error` unset. -/
def ErrorFree (m : TaskManager) (id : Nat) : Prop :=
  (∀ u ∈ m.task_history, u.task_id = id → u.error = none) ∧
  (∀ u, m.current_task = some u → u.task_id = id → u.error = none)

/-- Every stored task with the given id has the given status. -/
def StatusAll (m : TaskManager) (id : Nat) (st : TaskStatus) : Prop :=
  (∀ u ∈ m.task_history, u.task_id = id → u.status = st) ∧
  (∀ u, m.current_task = some u → u.task_id = id → u.status = st)

/-- A sample task in the Running state with its cancellation event clear. -/
def runningTask : Task :=
  { task_id := 0, operation_type := OperationType.axis_movement,
    status := TaskStatus.running, created_at := 0, started_at := some 1 }

/-- A sample registry whose current task is `runningTask`. -/
def mRunning : TaskManager :=
  { current_task := some runningTask, task_history := [runningTask],
    next_id := 1, clock := 2 }

/-- A sample task in the Completed state. -/
def doneTask : Task :=
  { task_id := 0, operation_type := OperationType.axis_movement,
    status := TaskStatus.completed, created_at := 0, started_at := some 1,
    completed_at := some 2, result := some "res0" }

/-- A sample registry whose history holds the completed `doneTask`. -/
def mDone : TaskManager :=
  { current_task := some doneTask, task_history := [doneTask],
    next_id := 1, clock := 3 }

/-- A sample task in the Stopping state with its cancellation event armed, as
left by `cancel_task` on a running task. -/
def stoppingTask : Task :=
  { task_id := 0, operation_type := OperationType.angle_adjustment,
    status := TaskStatus.stopping, created_at := 0, started_at := some 1,
    cancellation_event := true }

/-- A sample registry whose current task is `stoppingTask`. -/
def mStopping : TaskManager :=
  { current_task := some stoppingTask, task_history := [stoppingTask],
    next_id := 1, clock := 2 }

/-- Scenario E of the spec: a registry with history capacity 3, on which five
tasks are created, completed and released in sequence. -/
def scenarioE : TaskManager :=
  applyOps { max_history_size := 3 }
    [RegOp.createOp OperationType.axis_movement none,
     RegOp.completeOp 0 "r0", RegOp.clearOp,
     RegOp.createOp OperationType.axis_movement none,
     RegOp.completeOp 1 "r1", RegOp.clearOp,
     RegOp.createOp OperationType.axis_movement none,
     RegOp.completeOp 2 "r2", RegOp.clearOp,
     RegOp.createOp OperationType.axis_movement none,
     RegOp.completeOp 3 "r3", RegOp.clearOp,
     RegOp.createOp OperationType.axis_movement none,
     RegOp.completeOp 4 "r4", RegOp.clearOp]

theorem dictGet_map (h : List Task) (id : Nat) (g : Task → Task)
    (hid : ∀ t, (g t).task_id = t.task_id) :
    dictGet (h.map g) id = (dictGet h id).map g := by
  induction h with
  | nil => rfl
  | cons x xs ih =>
    simp only [dictGet, List.map_cons, List.find?_cons] at *
    by_cases hx : x.task_id = id
    · simp [hid x, hx]
    · simpa [hid x, hx] using ih

theorem dictGet_some {h : List Task} {id : Nat} {t : Task}
    (hg : dictGet h id = some t) : t.task_id = id := by
  have := List.find?_some hg
  simpa using this

theorem get_task_id {m : TaskManager} {id : Nat} {t : Task}
    (h : get_task m id = some t) : t.task_id = id := by
  cases hc : m.current_task with
  | none =>
    simp only [get_task, hc] at h
    exact dictGet_some h
  | some c =>
    simp only [get_task, hc] at h
    by_cases hcid : c.task_id = id
    · rw [if_pos hcid] at h
      cases h; exact hcid
    · rw [if_neg hcid] at h
      exact dictGet_some h

theorem mutate_keeps_id (id : Nat) (f : Task → Task)
    (hid : ∀ t, (f t).task_id = t.task_id) (t : Task) :
    (if t.task_id = id then f t else t).task_id = t.task_id := by
  by_cases h : t.task_id = id <;> simp [h, hid]

theorem get_task_mutate (m : TaskManager) (id j : Nat) (f : Task → Task)
    (hid : ∀ t, (f t).task_id = t.task_id) :
    get_task (mutateTask m id f) j =
      (get_task m j).map (fun t => if t.task_id = id then f t else t) := by
  cases hc : m.current_task with
  | none =>
    simp only [get_task, mutateTask, hc, Option.map_none]
    exact dictGet_map m.task_history j _ (mutate_keeps_id id f hid)
  | some c =>
    simp only [get_task, mutateTask, hc]
    dsimp only [Option.map]
    rw [mutate_keeps_id id f hid c]
    by_cases hcj : c.task_id = j
    · rw [if_pos hcj, if_pos hcj]
    · rw [if_neg hcj, if_neg hcj]
      exact dictGet_map m.task_history j _ (mutate_keeps_id id f hid)

theorem dictInsert_fresh (h : List Task) (t : Task)
    (hfresh : ∀ u ∈ h, u.task_id ≠ t.task_id) :
    dictInsert h t = h ++ [t] := by
  unfold dictInsert
  rw [if_neg]
  simp only [List.any_eq_true, decide_eq_true_eq, not_exists, not_and]
  exact hfresh

theorem mem_filter_out {H : List Task} {a : Task} (v : Task)
    (hnd : (H.map Task.task_id).Nodup) (ha : a ∈ H) :
    (v ∈ H.filter (fun u => !(a.task_id = u.task_id))) ↔ v ∈ H ∧ v ≠ a := by
  rw [List.mem_filter]
  constructor
  · rintro ⟨hv, hb⟩
    refine ⟨hv, fun hva => ?_⟩
    subst hva
    simp at hb
  · rintro ⟨hv, hne⟩
    refine ⟨hv, ?_⟩
    have hids : a.task_id ≠ v.task_id := fun h =>
      hne (List.inj_on_of_nodup_map hnd hv ha h.symm)
    simp [hids]

theorem length_filter_out (H : List Task) (a : Task) :
    (H.map Task.task_id).Nodup → a ∈ H →
    (H.filter (fun u => !(a.task_id = u.task_id))).length + 1 = H.length := by
  induction H with
  | nil => intro _ ha; cases ha
  | cons x xs ih =>
    intro hnd ha
    simp only [List.map_cons, List.nodup_cons] at hnd
    rcases List.mem_cons.mp ha with rfl | hmem
    · have hxs : xs.filter (fun u => !(a.task_id = u.task_id)) = xs := by
        rw [List.filter_eq_self]
        intro u hu
        have hne : a.task_id ≠ u.task_id := by
          intro h
          exact hnd.1 (h ▸ List.mem_map_of_mem Task.task_id hu)
        simp [hne]
      simp [hxs]
    · have hax : a.task_id ≠ x.task_id := by
        intro h
        apply hnd.1
        rw [← h]
        exact List.mem_map_of_mem Task.task_id hmem
      rw [List.filter_cons, if_pos (by simp [hax])]
      simp only [List.length_cons]
      rw [← ih hnd.2 hmem]

theorem sorted_head_min (H : List Task) (a : Task) (rest : List Task)
    (hsort : List.insertionSort createdLe H = a :: rest)
    (hndC : (H.map Task.created_at).Nodup) :
    a ∈ H ∧ ∀ v ∈ H, v ≠ a → a.created_at < v.created_at := by
  have hperm := List.perm_insertionSort createdLe H
  rw [hsort] at hperm
  have hsorted := List.sorted_insertionSort createdLe H
  rw [hsort] at hsorted
  have hrel := List.rel_of_sorted_cons hsorted
  have haH : a ∈ H := hperm.mem_iff.mp (List.mem_cons_self a rest)
  refine ⟨haH, fun v hv hne => ?_⟩
  have hvs : v ∈ a :: rest := hperm.mem_iff.mpr hv
  rcases List.mem_cons.mp hvs with rfl | hvrest
  · exact absurd rfl hne
  · have hle : a.created_at ≤ v.created_at := hrel v hvrest
    have hneq : a.created_at ≠ v.created_at := fun h =>
      hne (List.inj_on_of_nodup_map hndC hv haH h.symm)
    omega

theorem add_to_history_spec (m : TaskManager) (t : Task)
    (hmax : 1 ≤ m.max_history_size)
    (hlen : m.task_history.length ≤ m.max_history_size)
    (hnodup : (m.task_history.map Task.task_id).Nodup)
    (hcnodup : (m.task_history.map Task.created_at).Nodup)
    (hfresh : ∀ u ∈ m.task_history, u.task_id ≠ t.task_id)
    (hnew : ∀ u ∈ m.task_history, u.created_at < t.created_at) :
    t ∈ (add_to_history m t).task_history ∧
    (add_to_history m t).task_history.length ≤ m.max_history_size ∧
    (m.task_history.length < m.max_history_size →
      (add_to_history m t).task_history = m.task_history ++ [t]) ∧
    (m.task_history.length = m.max_history_size →
      (add_to_history m t).task_history.length = m.max_history_size) ∧
    (∀ u ∈ m.task_history, u ∉ (add_to_history m t).task_history →
      ∀ v ∈ (add_to_history m t).task_history, u.created_at < v.created_at) ∧
    (∀ v ∈ (add_to_history m t).task_history, v ∈ m.task_history ∨ v = t) ∧
    (add_to_history m t).current_task = m.current_task ∧
    (add_to_history m t).max_history_size = m.max_history_size ∧
    (add_to_history m t).next_id = m.next_id ∧
    (add_to_history m t).clock = m.clock := by
  have hins := dictInsert_fresh m.task_history t hfresh
  have hndH : ((m.task_history ++ [t]).map Task.task_id).Nodup := by
    rw [List.map_append]
    rw [List.nodup_append]
    refine ⟨hnodup, List.nodup_singleton _, ?_⟩
    intro x hx
    simp only [List.mem_map] at hx
    obtain ⟨u, hu, rfl⟩ := hx
    simpa using hfresh u hu
  have hndC : ((m.task_history ++ [t]).map Task.created_at).Nodup := by
    rw [List.map_append]
    rw [List.nodup_append]
    refine ⟨hcnodup, List.nodup_singleton _, ?_⟩
    intro x hx
    simp only [List.mem_map] at hx
    obtain ⟨u, hu, rfl⟩ := hx
    have hlt := hnew u hu
    simp only [List.map_cons, List.map_nil, List.mem_singleton]
    omega
  have htH : t ∈ m.task_history ++ [t] := by simp
  have hlenH : (m.task_history ++ [t]).length = m.task_history.length + 1 := by
    simp
  simp only [add_to_history, hins]
  by_cases hc : (m.task_history ++ [t]).length > m.max_history_size
  · rw [if_pos hc]
    dsimp only
    have hold : m.task_history.length = m.max_history_size := by omega
    have hslen : (List.insertionSort createdLe (m.task_history ++ [t])).length =
        (m.task_history ++ [t]).length :=
      (List.perm_insertionSort createdLe _).length_eq
    cases hsort : List.insertionSort createdLe (m.task_history ++ [t]) with
    | nil =>
      rw [hsort] at hslen
      simp at hslen
    | cons a rest =>
      obtain ⟨haH, hmin⟩ := sorted_head_min _ a rest hsort hndC
      rw [hsort] at hslen
      have hk : (a :: rest).length - m.max_history_size = 1 := by
        omega
      rw [hk]
      rw [show List.take 1 (a :: rest) = [a] from by simp]
      have hat : a ≠ t := by
        intro hate
        obtain ⟨u, hu⟩ : ∃ u, u ∈ m.task_history := by
          cases hml : m.task_history with
          | nil =>
            exfalso
            rw [hml] at hold
            simp at hold
            omega
          | cons y ys => exact ⟨y, List.mem_cons_self y ys⟩
        have hut : u ≠ a := by
          intro h
          have h2 := hnew u hu
          rw [h, hate] at h2
          omega
        have h1 := hmin u (List.mem_append_left _ hu) hut
        have h2 := hnew u hu
        rw [hate] at h1
        omega
      have haold : a ∈ m.task_history := by
        rcases List.mem_append.mp haH with h | h
        · exact h
        · exact absurd (List.mem_singleton.mp h) hat
      have hfeq : (m.task_history ++ [t]).filter
          (fun u => !(([a] : List Task).any (fun v => v.task_id = u.task_id))) =
          (m.task_history ++ [t]).filter (fun u => !(a.task_id = u.task_id)) := by
        apply List.filter_congr
        intro u _
        simp [eq_comm]
      rw [hfeq]
      have hflen := length_filter_out (m.task_history ++ [t]) a hndH haH
      refine ⟨?_, ?_, ?_, ?_, ?_, ?_, rfl, rfl, rfl, rfl⟩
      · exact (mem_filter_out t hndH haH).mpr ⟨htH, fun h => hat h.symm⟩
      · omega
      · intro h; omega
      · intro _; omega
      · intro u hu hnotin v hv
        have hua : u = a := by
          by_contra hua
          exact hnotin ((mem_filter_out u hndH haH).mpr
            ⟨List.mem_append_left _ hu, hua⟩)
        obtain ⟨hvH, hva⟩ := (mem_filter_out v hndH haH).mp hv
        rw [hua]
        exact hmin v hvH hva
      · intro v hv
        obtain ⟨hvH, _⟩ := (mem_filter_out v hndH haH).mp hv
        rcases List.mem_append.mp hvH with h | h
        · exact Or.inl h
        · exact Or.inr (List.mem_singleton.mp h)
  · rw [if_neg hc]
    dsimp only
    refine ⟨htH, by omega, fun _ => rfl, ?_, ?_, ?_, rfl, rfl, rfl, rfl⟩
    · intro h; omega
    · intro u hu hnotin _ _
      exact absurd (List.mem_append_left _ hu) hnotin
    · intro v hv
      rcases List.mem_append.mp hv with h | h
      · exact Or.inl h
      · exact Or.inr (List.mem_singleton.mp h)

theorem add_to_history_frame (m : TaskManager) (t : Task) :
    (add_to_history m t).current_task = m.current_task ∧
    (add_to_history m t).max_history_size = m.max_history_size ∧
    (add_to_history m t).next_id = m.next_id ∧
    (add_to_history m t).clock = m.clock := by
  simp only [add_to_history]
  by_cases h : (dictInsert m.task_history t).length > m.max_history_size
  · rw [if_pos h]; exact ⟨rfl, rfl, rfl, rfl⟩
  · rw [if_neg h]; exact ⟨rfl, rfl, rfl, rfl⟩

theorem mem_dictInsert {h : List Task} {t v : Task} (hv : v ∈ dictInsert h t) :
    v ∈ h ∨ v = t := by
  unfold dictInsert at hv
  by_cases hany : h.any (fun u => u.task_id = t.task_id)
  · rw [if_pos hany] at hv
    obtain ⟨u, hu, huv⟩ := List.mem_map.mp hv
    by_cases hid : u.task_id = t.task_id
    · rw [if_pos hid] at huv
      exact Or.inr huv.symm
    · rw [if_neg hid] at huv
      exact Or.inl (huv ▸ hu)
  · rw [if_neg hany] at hv
    rcases List.mem_append.mp hv with h1 | h1
    · exact Or.inl h1
    · exact Or.inr (List.mem_singleton.mp h1)

theorem mem_add_to_history {m : TaskManager} {t v : Task}
    (hv : v ∈ (add_to_history m t).task_history) : v ∈ m.task_history ∨ v = t := by
  simp only [add_to_history] at hv
  by_cases h : (dictInsert m.task_history t).length > m.max_history_size
  · rw [if_pos h] at hv
    dsimp only at hv
    exact mem_dictInsert (List.mem_of_mem_filter hv)
  · rw [if_neg h] at hv
    exact mem_dictInsert hv

theorem new_task_mem (m : TaskManager) (task : Task) (cur : Option Task)
    (hwf : Wf m) (hid : task.task_id = m.next_id)
    (hcr : task.created_at = m.clock) :
    task ∈ (add_to_history
      { m with current_task := cur, next_id := m.next_id + 1,
               clock := m.clock + 1 } task).task_history := by
  obtain ⟨hw1, hw2, hw3, hw4, hw5, hw6⟩ := hwf
  exact (add_to_history_spec
    { m with current_task := cur, next_id := m.next_id + 1,
             clock := m.clock + 1 } task hw1 hw2 hw3 hw4
    (fun u hu => by have := hw6 u hu; omega)
    (fun u hu => by have := hw5 u hu; omega)).1

theorem get_task_mutate_self {m : TaskManager} {id : Nat} {t : Task}
    (hget : get_task m id = some t) (f : Task → Task)
    (hid : ∀ u, (f u).task_id = u.task_id) :
    get_task (mutateTask m id f) id = some (f t) := by
  rw [get_task_mutate m id id f hid, hget]
  simp [get_task_id hget]

theorem get_task_mutate_ne {m : TaskManager} {id : Nat} (j : Nat)
    (f : Task → Task) (hid : ∀ u, (f u).task_id = u.task_id) (hne : j ≠ id) :
    get_task (mutateTask m id f) j = get_task m j := by
  rw [get_task_mutate m id j f hid]
  cases hg : get_task m j with
  | none => rfl
  | some u => simp [get_task_id hg, hne]

theorem mutate_current {m : TaskManager} {t : Task} {id : Nat}
    (hcur : m.current_task = some t) (htid : t.task_id = id) (f : Task → Task) :
    (mutateTask m id f).current_task = some (f t) := by
  simp [mutateTask, hcur, htid]

theorem dictGet_mutate_self {m : TaskManager} {id : Nat} {t : Task}
    (hh : dictGet m.task_history id = some t) (f : Task → Task)
    (hid : ∀ u, (f u).task_id = u.task_id) :
    dictGet (mutateTask m id f).task_history id = some (f t) := by
  show dictGet (m.task_history.map _) id = _
  rw [dictGet_map _ _ _ (mutate_keeps_id id f hid), hh]
  simp [dictGet_some hh]

theorem statusUpd_id (clk : Nat) (s : TaskStatus) (t : Task) :
    (statusUpd clk s t).task_id = t.task_id := by
  unfold statusUpd
  dsimp only
  split
  · rfl
  · split <;> rfl

theorem StatusAll_get {m : TaskManager} {id : Nat} {st : TaskStatus}
    (h : StatusAll m id st) :
    ∀ t', get_task m id = some t' → t'.status = st := by
  intro t' hg
  have htid := get_task_id hg
  cases hc : m.current_task with
  | none =>
    simp only [get_task, hc] at hg
    exact h.1 t' (List.mem_of_find?_eq_some hg) htid
  | some c =>
    simp only [get_task, hc] at hg
    by_cases hcid : c.task_id = id
    · rw [if_pos hcid] at hg
      injection hg with hg
      subst hg
      exact h.2 c hc htid
    · rw [if_neg hcid] at hg
      exact h.1 t' (List.mem_of_find?_eq_some hg) htid

/-- C1: `create_task` raises `Conflict` exactly when a current task exists in
Pending, Running or Stopping; on the error path the whole registry state is
left unchanged; otherwise a fresh Task in Pending status (with empty result,
error and cancellation event) is stored as current, inserted into history
(under well-formedness of the state), and returned. -/
theorem claim_c1_create_task (m : TaskManager) (op : OperationType)
    (d : Option String) :
    ((create_task m op d).2 = Except.error RegErr.conflict ↔
      ∃ c, m.current_task = some c ∧ c.status ∈ activeStatuses) ∧
    (∀ e, (create_task m op d).2 = Except.error e → (create_task m op d).1 = m) ∧
    (∀ t, (create_task m op d).2 = Except.ok t →
      t.status = TaskStatus.pending ∧ t.result = none ∧ t.error = none ∧
      t.cancellation_event = false ∧ t.operation_type = op ∧
      t.request_data = d ∧ t.task_id = m.next_id ∧
      (create_task m op d).1.current_task = some t ∧
      (Wf m → t ∈ (create_task m op d).1.task_history)) := by
  cases hcur : m.current_task with
  | none =>
    have hcreate : create_task m op d =
        (add_to_history
          { m with
              current_task := some (newTask m op d),
              next_id := m.next_id + 1, clock := m.clock + 1 } (newTask m op d),
         Except.ok (newTask m op d)) := by
      simp only [create_task, hcur]
    rw [hcreate]
    refine ⟨⟨fun h => Except.noConfusion h, ?_⟩,
      fun e he => Except.noConfusion he, ?_⟩
    · rintro ⟨c, hc, _⟩
      cases hc
    · intro t ht
      injection ht with ht
      subst ht
      refine ⟨rfl, rfl, rfl, rfl, rfl, rfl, rfl, ?_,
        fun hwf => new_task_mem m _ _ hwf rfl rfl⟩
      rw [(add_to_history_frame _ _).1]
  | some c =>
    by_cases hact : c.status ∈ activeStatuses
    · have hcreate : create_task m op d = (m, Except.error RegErr.conflict) := by
        simp only [create_task, hcur, if_pos hact]
      rw [hcreate]
      exact ⟨⟨fun _ => ⟨c, rfl, hact⟩, fun _ => rfl⟩, fun e _ => rfl,
        fun t ht => Except.noConfusion ht⟩
    · have hcreate : create_task m op d =
          (add_to_history
            { m with
                current_task := some (newTask m op d),
                next_id := m.next_id + 1, clock := m.clock + 1 } (newTask m op d),
           Except.ok (newTask m op d)) := by
        simp only [create_task, hcur, if_neg hact]
      rw [hcreate]
      refine ⟨⟨fun h => Except.noConfusion h, ?_⟩,
        fun e he => Except.noConfusion he, ?_⟩
      · rintro ⟨c', hc', hact'⟩
        injection hc' with hc'
        subst hc'
        exact absurd hact' hact
      · intro t ht
        injection ht with ht
        subst ht
        refine ⟨rfl, rfl, rfl, rfl, rfl, rfl, rfl, ?_,
          fun hwf => new_task_mem m _ _ hwf rfl rfl⟩
        rw [(add_to_history_frame _ _).1]

theorem claim_c1_create_task_witness :
    Wf ({ } : TaskManager) ∧
    ({ task_id := 0, operation_type := OperationType.axis_movement,
       created_at := 0 } : Task) ∈
      (create_task { } OperationType.axis_movement none).1.task_history :=
  ⟨by decide,
   ((claim_c1_create_task { } OperationType.axis_movement none).2.2 _
      rfl).2.2.2.2.2.2.2.2 (by decide)⟩

/-- C4: `cancel_task` fails with `NotFound` on an unknown id and with
`InvalidState` when the task is not Pending or Running, leaving the registry
unchanged on both error paths; on a Pending or Running task it arms the
cancellation event and moves the status to Stopping; and a second call then
fails with `InvalidState` while leaving the state produced by the first call
untouched. -/
theorem claim_c4_cancel_task (m : TaskManager) (id : Nat) :
    (get_task m id = none →
      (cancel_task m id).1 = m ∧
      (cancel_task m id).2 = Except.error RegErr.notFound) ∧
    (∀ t, get_task m id = some t →
      (t.status ∉ [TaskStatus.pending, TaskStatus.running] →
        (cancel_task m id).1 = m ∧
        (cancel_task m id).2 = Except.error RegErr.invalidState) ∧
      (t.status ∈ [TaskStatus.pending, TaskStatus.running] →
        (cancel_task m id).2 = Except.ok () ∧
        get_task (cancel_task m id).1 id = some (cancelUpd t) ∧
        (cancel_task (cancel_task m id).1 id).1 = (cancel_task m id).1 ∧
        (cancel_task (cancel_task m id).1 id).2 =
          Except.error RegErr.invalidState)) := by
  refine ⟨?_, ?_⟩
  · intro hnone
    have hc : cancel_task m id = (m, Except.error RegErr.notFound) := by
      simp only [cancel_task, hnone]
    rw [hc]
    exact ⟨rfl, rfl⟩
  · intro t hget
    refine ⟨?_, ?_⟩
    · intro hst
      have hc : cancel_task m id = (m, Except.error RegErr.invalidState) := by
        simp only [cancel_task, hget, if_neg hst]
      rw [hc]
      exact ⟨rfl, rfl⟩
    · intro hst
      have hc : cancel_task m id = (mutateTask m id cancelUpd, Except.ok ()) := by
        simp only [cancel_task, hget, if_pos hst]
      rw [hc]
      have h2 : get_task (mutateTask m id cancelUpd) id = some (cancelUpd t) :=
        get_task_mutate_self hget cancelUpd (fun _ => rfl)
      have hstop : (cancelUpd t).status ∉
          [TaskStatus.pending, TaskStatus.running] := by
        simp [cancelUpd]
      have hc2 : cancel_task (mutateTask m id cancelUpd) id =
          (mutateTask m id cancelUpd, Except.error RegErr.invalidState) := by
        simp only [cancel_task, h2, if_neg hstop]
      rw [hc2]
      exact ⟨rfl, h2, rfl, rfl⟩

theorem claim_c4_cancel_task_witness :
    get_task mRunning 0 = some runningTask ∧
    runningTask.status ∈ [TaskStatus.pending, TaskStatus.running] ∧
    (cancel_task mRunning 0).2 = Except.ok () ∧
    get_task (cancel_task mRunning 0).1 0 = some (cancelUpd runningTask) ∧
    (cancel_task (cancel_task mRunning 0).1 0).2 =
      Except.error RegErr.invalidState :=
  ⟨by decide, by decide,
   (((claim_c4_cancel_task mRunning 0).2 runningTask (by decide)).2
      (by decide)).1,
   (((claim_c4_cancel_task mRunning 0).2 runningTask (by decide)).2
      (by decide)).2.1,
   (((claim_c4_cancel_task mRunning 0).2 runningTask (by decide)).2
      (by decide)).2.2.2⟩

/-- C2 counterexample: `update_status` performs no state-machine check, so a
task already in the terminal Completed state is moved back to Running —
refuting the claim that no registry operation ever changes a terminal status. -/
theorem claim_c2_counterexample :
    doneTask.status = TaskStatus.completed ∧
    get_task mDone 0 = some doneTask ∧
    (get_task (update_status mDone 0 TaskStatus.running).1 0).map Task.status =
      some TaskStatus.running := by
  decide

theorem StatusAll_cancel (m : TaskManager) (id j : Nat) (st : TaskStatus)
    (hterm : st ∈ terminalStatuses) (h : StatusAll m id st) :
    StatusAll (cancel_task m j).1 id st := by
  obtain ⟨h1, h2⟩ := h
  cases hg : get_task m j with
  | none =>
    have hc : cancel_task m j = (m, Except.error RegErr.notFound) := by
      simp only [cancel_task, hg]
    rw [hc]
    exact ⟨h1, h2⟩
  | some u =>
    by_cases hs : u.status ∈ [TaskStatus.pending, TaskStatus.running]
    · by_cases hji : j = id
      · exfalso
        subst hji
        have hust := StatusAll_get ⟨h1, h2⟩ u hg
        rw [hust] at hs
        simp [terminalStatuses] at hterm
        rcases hterm with rfl | rfl | rfl <;> simp at hs
      · have hc : cancel_task m j = (mutateTask m j cancelUpd, Except.ok ()) := by
          simp only [cancel_task, hg, if_pos hs]
        rw [hc]
        constructor
        · intro v hv hvid
          obtain ⟨w, hw, hgw⟩ := List.mem_map.mp hv
          by_cases hwj : w.task_id = j
          · rw [if_pos hwj] at hgw
            subst hgw
            exact absurd (hvid ▸ hwj) (fun hh => hji hh.symm)
          · rw [if_neg hwj] at hgw
            subst hgw
            exact h1 w hw hvid
        · intro v hcv hvid
          cases hcm : m.current_task with
          | none => rw [mutateTask, hcm] at hcv; cases hcv
          | some c =>
            rw [mutateTask, hcm] at hcv
            dsimp only [Option.map] at hcv
            injection hcv with hcv
            by_cases hcj : c.task_id = j
            · rw [if_pos hcj] at hcv
              subst hcv
              exact absurd (hvid ▸ hcj) (fun hh => hji hh.symm)
            · rw [if_neg hcj] at hcv
              subst hcv
              exact h2 c hcm hvid
    · have hc : cancel_task m j = (m, Except.error RegErr.invalidState) := by
        simp only [cancel_task, hg, if_neg hs]
      rw [hc]
      exact ⟨h1, h2⟩

/-- C2 amended: the registry enforces the state machine only in `cancel_task`
(success exactly on Pending or Running, transitioning to Stopping, and
`InvalidState` with an unchanged state on a terminal task, so that no sequence
of `cancel_task` calls ever changes a terminal status); `update_status`,
`complete_task` and `fail_task`, by contrast, overwrite the status
unconditionally, so a sequence containing them can leave a terminal state. -/
theorem claim_c2_amended :
    (∀ (m : TaskManager) (id : Nat) (t : Task), get_task m id = some t →
      ((cancel_task m id).2 = Except.ok () ↔
        t.status ∈ [TaskStatus.pending, TaskStatus.running]) ∧
      ((cancel_task m id).2 = Except.ok () →
        get_task (cancel_task m id).1 id = some (cancelUpd t) ∧
        (cancelUpd t).status = TaskStatus.stopping) ∧
      (t.status ∈ terminalStatuses →
        (cancel_task m id).1 = m ∧
        (cancel_task m id).2 = Except.error RegErr.invalidState)) ∧
    (∀ (m : TaskManager) (id : Nat) (st : TaskStatus) (ops : List RegOp),
      st ∈ terminalStatuses → StatusAll m id st →
      (∀ o ∈ ops, ∃ j, o = RegOp.cancelOp j) →
      StatusAll (applyOps m ops) id st ∧
      ∀ t', get_task (applyOps m ops) id = some t' → t'.status = st) := by
  constructor
  · intro m id t hget
    by_cases hs : t.status ∈ [TaskStatus.pending, TaskStatus.running]
    · have hc : cancel_task m id = (mutateTask m id cancelUpd, Except.ok ()) := by
        simp only [cancel_task, hget, if_pos hs]
      rw [hc]
      refine ⟨⟨fun _ => hs, fun _ => rfl⟩, ?_, ?_⟩
      · intro _
        exact ⟨get_task_mutate_self hget cancelUpd (fun _ => rfl), rfl⟩
      · intro hterm
        exfalso
        simp [terminalStatuses] at hterm
        rcases hterm with h | h | h <;> rw [h] at hs <;> simp at hs
    · have hc : cancel_task m id = (m, Except.error RegErr.invalidState) := by
        simp only [cancel_task, hget, if_neg hs]
      rw [hc]
      exact ⟨⟨fun h => Except.noConfusion h, fun h => absurd h hs⟩,
        fun h => Except.noConfusion h, fun _ => ⟨rfl, rfl⟩⟩
  · intro m id st ops hterm hall hops
    induction ops generalizing m with
    | nil => exact ⟨hall, StatusAll_get hall⟩
    | cons o os ih =>
      obtain ⟨j, rfl⟩ := hops o (List.mem_cons_self o os)
      have hall' : StatusAll (cancel_task m j).1 id st :=
        StatusAll_cancel m id j st hterm hall
      exact ih (cancel_task m j).1 hall'
        (fun o ho => hops o (List.mem_cons_of_mem _ ho))

theorem claim_c2_amended_witness :
    StatusAll mDone 0 TaskStatus.completed ∧
    ∀ t', get_task (applyOps mDone [RegOp.cancelOp 0]) 0 = some t' →
      t'.status = TaskStatus.completed := by
  have hall : StatusAll mDone 0 TaskStatus.completed := by
    constructor
    · intro u hu _
      simp only [mDone, List.mem_singleton] at hu
      subst hu
      rfl
    · intro u hu _
      simp only [mDone] at hu
      injection hu with hu
      subst hu
      rfl
  exact ⟨hall, (claim_c2_amended.2 mDone 0 TaskStatus.completed
    [RegOp.cancelOp 0] (by decide) hall
    (fun o ho => ⟨0, List.mem_singleton.mp ho⟩)).2⟩

theorem statusUpd_result (clk : Nat) (s : TaskStatus) (t : Task) :
    (statusUpd clk s t).result = t.result := by
  unfold statusUpd
  dsimp only
  split
  · rfl
  · split <;> rfl

theorem statusUpd_error (clk : Nat) (s : TaskStatus) (t : Task) :
    (statusUpd clk s t).error = t.error := by
  unfold statusUpd
  dsimp only
  split
  · rfl
  · split <;> rfl

theorem FreeAll_mutate {m : TaskManager} {id : Nat} (j : Nat) (f : Task → Task)
    (g : Task → Option String)
    (hid : ∀ u, (f u).task_id = u.task_id)
    (hpres : j = id → ∀ u, g (f u) = g u)
    (h1 : ∀ u ∈ m.task_history, u.task_id = id → g u = none)
    (h2 : ∀ u, m.current_task = some u → u.task_id = id → g u = none) :
    (∀ u ∈ (mutateTask m j f).task_history, u.task_id = id → g u = none) ∧
    (∀ u, (mutateTask m j f).current_task = some u → u.task_id = id →
      g u = none) := by
  constructor
  · intro v hv hvid
    obtain ⟨w, hw, hgw⟩ := List.mem_map.mp hv
    by_cases hwj : w.task_id = j
    · rw [if_pos hwj] at hgw
      subst hgw
      have hwid : w.task_id = id := by rw [← hid w]; exact hvid
      rw [hpres (by rw [← hwj]; exact hwid) w]
      exact h1 w hw hwid
    · rw [if_neg hwj] at hgw
      subst hgw
      exact h1 w hw hvid
  · intro v hcv hvid
    cases hcm : m.current_task with
    | none => rw [mutateTask, hcm] at hcv; cases hcv
    | some c =>
      rw [mutateTask, hcm] at hcv
      dsimp only [Option.map] at hcv
      injection hcv with hcv
      by_cases hcj : c.task_id = j
      · rw [if_pos hcj] at hcv
        subst hcv
        have hcid : c.task_id = id := by rw [← hid c]; exact hvid
        rw [hpres (by rw [← hcj]; exact hcid) c]
        exact h2 c hcm hcid
      · rw [if_neg hcj] at hcv
        subst hcv
        exact h2 c hcm hvid

theorem FreeAll_get {m : TaskManager} {id : Nat} {g : Task → Option String}
    (h1 : ∀ u ∈ m.task_history, u.task_id = id → g u = none)
    (h2 : ∀ u, m.current_task = some u → u.task_id = id → g u = none) :
    ∀ t', get_task m id = some t' → g t' = none := by
  intro t' hg
  have htid := get_task_id hg
  cases hc : m.current_task with
  | none =>
    simp only [get_task, hc] at hg
    exact h1 t' (List.mem_of_find?_eq_some hg) htid
  | some c =>
    simp only [get_task, hc] at hg
    by_cases hcid : c.task_id = id
    · rw [if_pos hcid] at hg
      injection hg with hg
      subst hg
      exact h2 c hc htid
    · rw [if_neg hcid] at hg
      exact h1 t' (List.mem_of_find?_eq_some hg) htid

theorem create_state_cases (m : TaskManager) (k : OperationType)
    (d : Option String) :
    (create_task m k d).1 = m ∨
    ((create_task m k d).1.current_task = some (newTask m k d) ∧
      ∀ v ∈ (create_task m k d).1.task_history,
        v ∈ m.task_history ∨ v = newTask m k d) := by
  cases hcur : m.current_task with
  | none =>
    right
    have hcreate : (create_task m k d).1 = add_to_history
        { m with
            current_task := some (newTask m k d),
            next_id := m.next_id + 1, clock := m.clock + 1 } (newTask m k d) := by
      simp only [create_task, hcur]
    rw [hcreate]
    refine ⟨(add_to_history_frame _ _).1, fun v hv => ?_⟩
    have hmem := mem_add_to_history hv
    exact hmem
  | some c =>
    by_cases hact : c.status ∈ activeStatuses
    · left
      simp only [create_task, hcur, if_pos hact]
    · right
      have hcreate : (create_task m k d).1 = add_to_history
          { m with
              current_task := some (newTask m k d),
              next_id := m.next_id + 1, clock := m.clock + 1 }
          (newTask m k d) := by
        simp only [create_task, hcur, if_neg hact]
      rw [hcreate]
      refine ⟨(add_to_history_frame _ _).1, fun v hv => ?_⟩
      have hmem := mem_add_to_history hv
      exact hmem

theorem ResultFree_applyOp (m : TaskManager) (id : Nat) (o : RegOp)
    (ho : ∀ r, o ≠ RegOp.completeOp id r) (h : ResultFree m id) :
    ResultFree (applyOp m o) id := by
  obtain ⟨h1, h2⟩ := h
  cases o with
  | createOp k d =>
    show ResultFree (create_task m k d).1 id
    rcases create_state_cases m k d with heq | ⟨hcur, hsub⟩
    · rw [heq]; exact ⟨h1, h2⟩
    · constructor
      · intro v hv hvid
        rcases hsub v hv with hvm | rfl
        · exact h1 v hvm hvid
        · rfl
      · intro v hcv hvid
        rw [hcur] at hcv
        injection hcv with hcv
        subst hcv
        rfl
  | statusOp j s =>
    show ResultFree (update_status m j s).1 id
    cases hg : get_task m j with
    | none =>
      have heq : (update_status m j s).1 = m := by simp only [update_status, hg]
      rw [heq]; exact ⟨h1, h2⟩
    | some u =>
      have key := FreeAll_mutate j (statusUpd m.clock s) Task.result
        (statusUpd_id m.clock s) (fun _ u => statusUpd_result m.clock s u) h1 h2
      have heq : (update_status m j s).1 =
          (if s = TaskStatus.running ∨ s ∈ terminalStatuses then
            { mutateTask m j (statusUpd m.clock s) with clock := m.clock + 1 }
          else mutateTask m j (statusUpd m.clock s)) := by
        simp only [update_status, hg]
      rw [heq]
      by_cases hcond : s = TaskStatus.running ∨ s ∈ terminalStatuses
      · rw [if_pos hcond]; exact key
      · rw [if_neg hcond]; exact key
  | progressOp j patch =>
    show ResultFree (update_progress m j patch).1 id
    cases hg : get_task m j with
    | none =>
      have heq : (update_progress m j patch).1 = m := by
        simp only [update_progress, hg]
      rw [heq]; exact ⟨h1, h2⟩
    | some u =>
      have heq : (update_progress m j patch).1 =
          mutateTask m j (fun t => { t with progress := progUpdate t.progress patch }) := by
        simp only [update_progress, hg]
      rw [heq]
      exact FreeAll_mutate j _ Task.result (fun _ => rfl) (fun _ _ => rfl) h1 h2
  | completeOp j r =>
    show ResultFree (complete_task m j r).1 id
    have hji : j ≠ id := fun hji => ho r (by rw [hji])
    cases hg : get_task m j with
    | none =>
      have heq : (complete_task m j r).1 = m := by simp only [complete_task, hg]
      rw [heq]; exact ⟨h1, h2⟩
    | some u =>
      have heq : (complete_task m j r).1 =
          { mutateTask m j (completeUpd m.clock r) with clock := m.clock + 1 } := by
        simp only [complete_task, hg]
      rw [heq]
      exact FreeAll_mutate j _ Task.result (fun _ => rfl)
        (fun hji' => absurd hji' hji) h1 h2
  | failOp j e =>
    show ResultFree (fail_task m j e).1 id
    cases hg : get_task m j with
    | none =>
      have heq : (fail_task m j e).1 = m := by simp only [fail_task, hg]
      rw [heq]; exact ⟨h1, h2⟩
    | some u =>
      have heq : (fail_task m j e).1 =
          { mutateTask m j (failUpd m.clock e) with clock := m.clock + 1 } := by
        simp only [fail_task, hg]
      rw [heq]
      exact FreeAll_mutate j _ Task.result (fun _ => rfl) (fun _ _ => rfl) h1 h2
  | cancelOp j =>
    show ResultFree (cancel_task m j).1 id
    cases hg : get_task m j with
    | none =>
      have heq : (cancel_task m j).1 = m := by simp only [cancel_task, hg]
      rw [heq]; exact ⟨h1, h2⟩
    | some u =>
      by_cases hs : u.status ∈ [TaskStatus.pending, TaskStatus.running]
      · have heq : (cancel_task m j).1 = mutateTask m j cancelUpd := by
          simp only [cancel_task, hg, if_pos hs]
        rw [heq]
        exact FreeAll_mutate j _ Task.result (fun _ => rfl) (fun _ _ => rfl) h1 h2
      · have heq : (cancel_task m j).1 = m := by
          simp only [cancel_task, hg, if_neg hs]
        rw [heq]; exact ⟨h1, h2⟩
  | clearOp =>
    show ResultFree (clear_current_task m) id
    cases hcm : m.current_task with
    | none =>
      have heq : clear_current_task m = m := by simp only [clear_current_task, hcm]
      rw [heq]; exact ⟨h1, h2⟩
    | some c =>
      by_cases ht : c.status ∈ terminalStatuses
      · have heq : clear_current_task m = { m with current_task := none } := by
          simp only [clear_current_task, hcm, if_pos ht]
        rw [heq]
        exact ⟨h1, fun u hu => Option.noConfusion hu⟩
      · have heq : clear_current_task m = m := by
          simp only [clear_current_task, hcm, if_neg ht]
        rw [heq]; exact ⟨h1, h2⟩

theorem ErrorFree_applyOp (m : TaskManager) (id : Nat) (o : RegOp)
    (ho : ∀ e, o ≠ RegOp.failOp id e) (h : ErrorFree m id) :
    ErrorFree (applyOp m o) id := by
  obtain ⟨h1, h2⟩ := h
  cases o with
  | createOp k d =>
    show ErrorFree (create_task m k d).1 id
    rcases create_state_cases m k d with heq | ⟨hcur, hsub⟩
    · rw [heq]; exact ⟨h1, h2⟩
    · constructor
      · intro v hv hvid
        rcases hsub v hv with hvm | rfl
        · exact h1 v hvm hvid
        · rfl
      · intro v hcv hvid
        rw [hcur] at hcv
        injection hcv with hcv
        subst hcv
        rfl
  | statusOp j s =>
    show ErrorFree (update_status m j s).1 id
    cases hg : get_task m j with
    | none =>
      have heq : (update_status m j s).1 = m := by simp only [update_status, hg]
      rw [heq]; exact ⟨h1, h2⟩
    | some u =>
      have key := FreeAll_mutate j (statusUpd m.clock s) Task.error
        (statusUpd_id m.clock s) (fun _ u => statusUpd_error m.clock s u) h1 h2
      have heq : (update_status m j s).1 =
          (if s = TaskStatus.running ∨ s ∈ terminalStatuses then
            { mutateTask m j (statusUpd m.clock s) with clock := m.clock + 1 }
          else mutateTask m j (statusUpd m.clock s)) := by
        simp only [update_status, hg]
      rw [heq]
      by_cases hcond : s = TaskStatus.running ∨ s ∈ terminalStatuses
      · rw [if_pos hcond]; exact key
      · rw [if_neg hcond]; exact key
  | progressOp j patch =>
    show ErrorFree (update_progress m j patch).1 id
    cases hg : get_task m j with
    | none =>
      have heq : (update_progress m j patch).1 = m := by
        simp only [update_progress, hg]
      rw [heq]; exact ⟨h1, h2⟩
    | some u =>
      have heq : (update_progress m j patch).1 =
          mutateTask m j (fun t => { t with progress := progUpdate t.progress patch }) := by
        simp only [update_progress, hg]
      rw [heq]
      exact FreeAll_mutate j _ Task.error (fun _ => rfl) (fun _ _ => rfl) h1 h2
  | completeOp j r =>
    show ErrorFree (complete_task m j r).1 id
    cases hg : get_task m j with
    | none =>
      have heq : (complete_task m j r).1 = m := by simp only [complete_task, hg]
      rw [heq]; exact ⟨h1, h2⟩
    | some u =>
      have heq : (complete_task m j r).1 =
          { mutateTask m j (completeUpd m.clock r) with clock := m.clock + 1 } := by
        simp only [complete_task, hg]
      rw [heq]
      exact FreeAll_mutate j _ Task.error (fun _ => rfl) (fun _ _ => rfl) h1 h2
  | failOp j e =>
    show ErrorFree (fail_task m j e).1 id
    have hji : j ≠ id := fun hji => ho e (by rw [hji])
    cases hg : get_task m j with
    | none =>
      have heq : (fail_task m j e).1 = m := by simp only [fail_task, hg]
      rw [heq]; exact ⟨h1, h2⟩
    | some u =>
      have heq : (fail_task m j e).1 =
          { mutateTask m j (failUpd m.clock e) with clock := m.clock + 1 } := by
        simp only [fail_task, hg]
      rw [heq]
      exact FreeAll_mutate j _ Task.error (fun _ => rfl)
        (fun hji' => absurd hji' hji) h1 h2
  | cancelOp j =>
    show ErrorFree (cancel_task m j).1 id
    cases hg : get_task m j with
    | none =>
      have heq : (cancel_task m j).1 = m := by simp only [cancel_task, hg]
      rw [heq]; exact ⟨h1, h2⟩
    | some u =>
      by_cases hs : u.status ∈ [TaskStatus.pending, TaskStatus.running]
      · have heq : (cancel_task m j).1 = mutateTask m j cancelUpd := by
          simp only [cancel_task, hg, if_pos hs]
        rw [heq]
        exact FreeAll_mutate j _ Task.error (fun _ => rfl) (fun _ _ => rfl) h1 h2
      · have heq : (cancel_task m j).1 = m := by
          simp only [cancel_task, hg, if_neg hs]
        rw [heq]; exact ⟨h1, h2⟩
  | clearOp =>
    show ErrorFree (clear_current_task m) id
    cases hcm : m.current_task with
    | none =>
      have heq : clear_current_task m = m := by simp only [clear_current_task, hcm]
      rw [heq]; exact ⟨h1, h2⟩
    | some c =>
      by_cases ht : c.status ∈ terminalStatuses
      · have heq : clear_current_task m = { m with current_task := none } := by
          simp only [clear_current_task, hcm, if_pos ht]
        rw [heq]
        exact ⟨h1, fun u hu => Option.noConfusion hu⟩
      · have heq : clear_current_task m = m := by
          simp only [clear_current_task, hcm, if_neg ht]
        rw [heq]; exact ⟨h1, h2⟩

/-- C6 counterexample: the registry allows `fail_task` after `complete_task`
on the same task, leaving the task Failed with both `result` and `error`
populated — refuting mutual exclusivity and the claim that tasks reaching
Failed have `result` unset. -/
theorem claim_c6_counterexample :
    (get_task (fail_task (complete_task mRunning 0 "res").1 0 "boom").1 0).map
        (fun t => (t.status, t.result, t.error)) =
      some (TaskStatus.failed, some "res", some "boom") := by
  decide

/-- C6 amended: `result` is written only by `complete_task` and `error` only
by `fail_task`: in any operation sequence free of `complete_task` calls for a
task, `result` stays unset, and likewise for `fail_task` and `error`; a single
`complete_task` on a task with `error` unset yields a Completed task with
`result` set and `error` unset, and a single `fail_task` on a task with
`result` unset yields a Failed task with `error` set and `result` unset.  The
registry does not, however, prevent a later `fail_task` (or `complete_task`)
from making both fields populated. -/
theorem claim_c6_amended :
    (∀ (m : TaskManager) (id : Nat) (ops : List RegOp), ResultFree m id →
      (∀ o ∈ ops, ∀ r, o ≠ RegOp.completeOp id r) →
      ResultFree (applyOps m ops) id ∧
      ∀ t', get_task (applyOps m ops) id = some t' → t'.result = none) ∧
    (∀ (m : TaskManager) (id : Nat) (ops : List RegOp), ErrorFree m id →
      (∀ o ∈ ops, ∀ e, o ≠ RegOp.failOp id e) →
      ErrorFree (applyOps m ops) id ∧
      ∀ t', get_task (applyOps m ops) id = some t' → t'.error = none) ∧
    (∀ (m : TaskManager) (id : Nat) (t : Task) (res : String),
      get_task m id = some t → t.error = none →
      get_task (complete_task m id res).1 id = some (completeUpd m.clock res t) ∧
      (completeUpd m.clock res t).status = TaskStatus.completed ∧
      (completeUpd m.clock res t).result = some res ∧
      (completeUpd m.clock res t).error = none) ∧
    (∀ (m : TaskManager) (id : Nat) (t : Task) (err : String),
      get_task m id = some t → t.result = none →
      get_task (fail_task m id err).1 id = some (failUpd m.clock err t) ∧
      (failUpd m.clock err t).status = TaskStatus.failed ∧
      (failUpd m.clock err t).error = some err ∧
      (failUpd m.clock err t).result = none) := by
  refine ⟨?_, ?_, ?_, ?_⟩
  · intro m id ops hfree hops
    induction ops generalizing m with
    | nil => exact ⟨hfree, FreeAll_get hfree.1 hfree.2⟩
    | cons o os ih =>
      have hfree' : ResultFree (applyOp m o) id :=
        ResultFree_applyOp m id o (hops o (List.mem_cons_self o os)) hfree
      exact ih (applyOp m o) hfree'
        (fun o' ho' => hops o' (List.mem_cons_of_mem _ ho'))
  · intro m id ops hfree hops
    induction ops generalizing m with
    | nil => exact ⟨hfree, FreeAll_get hfree.1 hfree.2⟩
    | cons o os ih =>
      have hfree' : ErrorFree (applyOp m o) id :=
        ErrorFree_applyOp m id o (hops o (List.mem_cons_self o os)) hfree
      exact ih (applyOp m o) hfree'
        (fun o' ho' => hops o' (List.mem_cons_of_mem _ ho'))
  · intro m id t res hget herr
    have heq : (complete_task m id res).1 =
        { mutateTask m id (completeUpd m.clock res) with clock := m.clock + 1 } := by
      simp only [complete_task, hget]
    rw [heq]
    refine ⟨get_task_mutate_self hget _ (fun _ => rfl), rfl, rfl, ?_⟩
    show t.error = none
    exact herr
  · intro m id t err hget hres
    have heq : (fail_task m id err).1 =
        { mutateTask m id (failUpd m.clock err) with clock := m.clock + 1 } := by
      simp only [fail_task, hget]
    rw [heq]
    refine ⟨get_task_mutate_self hget _ (fun _ => rfl), rfl, rfl, ?_⟩
    show t.result = none
    exact hres

theorem claim_c6_amended_witness :
    (get_task (applyOps mRunning [RegOp.failOp 0 "boom"]) 0).map Task.result =
      some none := by
  have hrf : ResultFree mRunning 0 := by
    constructor
    · intro u hu _
      simp only [mRunning, List.mem_singleton] at hu
      subst hu
      rfl
    · intro u hu _
      simp only [mRunning] at hu
      injection hu with hu
      subst hu
      rfl
  have h := (claim_c6_amended.1 mRunning 0 [RegOp.failOp 0 "boom"] hrf
    (by intro o ho r; rw [List.mem_singleton.mp ho]; intro hcon; cases hcon)).2
  have hg : get_task (applyOps mRunning [RegOp.failOp 0 "boom"]) 0 =
      some (failUpd 2 "boom" runningTask) := by decide
  rw [hg]
  dsimp only [Option.map]
  rw [h _ hg]

/-- C9: `started_at` is stamped exactly on the first transition to Running
(and not overwritten by a later Running transition), and `completed_at` is
stamped on every entry into Completed, Failed or Cancelled, whether through
`update_status`, `complete_task` or `fail_task`. -/
theorem claim_c9_timestamps (m : TaskManager) (id : Nat) (t : Task)
    (hget : get_task m id = some t) :
    (t.started_at = none →
      get_task (update_status m id TaskStatus.running).1 id =
        some { t with status := TaskStatus.running,
                      started_at := some m.clock }) ∧
    (∀ x, t.started_at = some x →
      get_task (update_status m id TaskStatus.running).1 id =
        some { t with status := TaskStatus.running }) ∧
    (∀ s, s ∈ terminalStatuses →
      get_task (update_status m id s).1 id =
        some { t with status := s, completed_at := some m.clock }) ∧
    (∀ res, (get_task (complete_task m id res).1 id).map Task.completed_at =
      some (some m.clock)) ∧
    (∀ err, (get_task (fail_task m id err).1 id).map Task.completed_at =
      some (some m.clock)) := by
  have hrun : ∀ s, (update_status m id s).1 =
      (if s = TaskStatus.running ∨ s ∈ terminalStatuses then
        { mutateTask m id (statusUpd m.clock s) with clock := m.clock + 1 }
      else mutateTask m id (statusUpd m.clock s)) := by
    intro s
    simp only [update_status, hget]
  refine ⟨?_, ?_, ?_, ?_, ?_⟩
  · intro hst
    rw [hrun TaskStatus.running, if_pos (Or.inl rfl)]
    have hg2 : get_task
        { mutateTask m id (statusUpd m.clock TaskStatus.running) with
            clock := m.clock + 1 } id =
        some (statusUpd m.clock TaskStatus.running t) :=
      get_task_mutate_self hget _ (statusUpd_id _ _)
    rw [hg2]
    have hval : statusUpd m.clock TaskStatus.running t =
        { t with status := TaskStatus.running, started_at := some m.clock } := by
      unfold statusUpd
      dsimp only
      rw [if_pos ⟨rfl, hst⟩]
    rw [hval]
  · intro x hst
    rw [hrun TaskStatus.running, if_pos (Or.inl rfl)]
    have hg2 : get_task
        { mutateTask m id (statusUpd m.clock TaskStatus.running) with
            clock := m.clock + 1 } id =
        some (statusUpd m.clock TaskStatus.running t) :=
      get_task_mutate_self hget _ (statusUpd_id _ _)
    rw [hg2]
    have hval : statusUpd m.clock TaskStatus.running t =
        { t with status := TaskStatus.running } := by
      unfold statusUpd
      dsimp only
      rw [if_neg (by rintro ⟨_, h2⟩; rw [hst] at h2; cases h2),
        if_neg (by decide)]
    rw [hval]
  · intro s hterm
    rw [hrun s, if_pos (Or.inr hterm)]
    have hg2 : get_task
        { mutateTask m id (statusUpd m.clock s) with clock := m.clock + 1 } id =
        some (statusUpd m.clock s t) :=
      get_task_mutate_self hget _ (statusUpd_id _ _)
    rw [hg2]
    have hval : statusUpd m.clock s t =
        { t with status := s, completed_at := some m.clock } := by
      unfold statusUpd
      dsimp only
      rw [if_neg (by rintro ⟨rfl, _⟩; exact absurd hterm (by decide)),
        if_pos hterm]
    rw [hval]
  · intro res
    have heq : (complete_task m id res).1 =
        { mutateTask m id (completeUpd m.clock res) with clock := m.clock + 1 } := by
      simp only [complete_task, hget]
    rw [heq]
    have hg2 : get_task
        { mutateTask m id (completeUpd m.clock res) with clock := m.clock + 1 } id =
        some (completeUpd m.clock res t) :=
      get_task_mutate_self hget _ (fun _ => rfl)
    rw [hg2]
    rfl
  · intro err
    have heq : (fail_task m id err).1 =
        { mutateTask m id (failUpd m.clock err) with clock := m.clock + 1 } := by
      simp only [fail_task, hget]
    rw [heq]
    have hg2 : get_task
        { mutateTask m id (failUpd m.clock err) with clock := m.clock + 1 } id =
        some (failUpd m.clock err t) :=
      get_task_mutate_self hget _ (fun _ => rfl)
    rw [hg2]
    rfl

theorem claim_c9_timestamps_witness :
    get_task (update_status mRunning 0 TaskStatus.running).1 0 =
      some { runningTask with status := TaskStatus.running } ∧
    (get_task (complete_task mRunning 0 "r").1 0).map Task.completed_at =
      some (some 2) :=
  ⟨(claim_c9_timestamps mRunning 0 runningTask (by decide)).2.1 1 rfl,
   (claim_c9_timestamps mRunning 0 runningTask (by decide)).2.2.2.1 "r"⟩

theorem mutate_history_ids (m : TaskManager) (id : Nat) (f : Task → Task)
    (hid : ∀ u, (f u).task_id = u.task_id) :
    (mutateTask m id f).task_history.map Task.task_id =
      m.task_history.map Task.task_id := by
  show (m.task_history.map _).map Task.task_id = _
  rw [List.map_map]
  exact List.map_congr_left (fun u _ => mutate_keeps_id id f hid u)

/-- C10: `complete_task` rewrites only `status`, `result` and `completed_at`,
and `fail_task` only `status`, `error` and `completed_at` — the task's id,
operation type, progress, creation and start stamps, cancellation event and
request data are untouched, every other task is unchanged, and the history's
key set is unchanged. -/
theorem claim_c10_frame (m : TaskManager) (id : Nat) (t : Task)
    (res err : String) (hget : get_task m id = some t) :
    (get_task (complete_task m id res).1 id =
      some (completeUpd m.clock res t)) ∧
    completeUpd m.clock res t =
      { t with status := TaskStatus.completed, result := some res,
               completed_at := some m.clock } ∧
    (get_task (fail_task m id err).1 id = some (failUpd m.clock err t)) ∧
    failUpd m.clock err t =
      { t with status := TaskStatus.failed, error := some err,
               completed_at := some m.clock } ∧
    (∀ j, j ≠ id → get_task (complete_task m id res).1 j = get_task m j) ∧
    (∀ j, j ≠ id → get_task (fail_task m id err).1 j = get_task m j) ∧
    ((complete_task m id res).1.task_history.map Task.task_id =
      m.task_history.map Task.task_id) ∧
    ((fail_task m id err).1.task_history.map Task.task_id =
      m.task_history.map Task.task_id) := by
  have heqc : (complete_task m id res).1 =
      { mutateTask m id (completeUpd m.clock res) with clock := m.clock + 1 } := by
    simp only [complete_task, hget]
  have heqf : (fail_task m id err).1 =
      { mutateTask m id (failUpd m.clock err) with clock := m.clock + 1 } := by
    simp only [fail_task, hget]
  refine ⟨?_, rfl, ?_, rfl, ?_, ?_, ?_, ?_⟩
  · rw [heqc]
    exact get_task_mutate_self hget _ (fun _ => rfl)
  · rw [heqf]
    exact get_task_mutate_self hget _ (fun _ => rfl)
  · intro j hj
    rw [heqc]
    exact get_task_mutate_ne j _ (fun _ => rfl) hj
  · intro j hj
    rw [heqf]
    exact get_task_mutate_ne j _ (fun _ => rfl) hj
  · rw [heqc]
    exact mutate_history_ids m id _ (fun _ => rfl)
  · rw [heqf]
    exact mutate_history_ids m id _ (fun _ => rfl)

theorem claim_c10_frame_witness :
    get_task (complete_task mRunning 0 "r").1 0 =
      some (completeUpd 2 "r" runningTask) ∧
    get_task (complete_task mRunning 0 "r").1 1 = get_task mRunning 1 :=
  ⟨(claim_c10_frame mRunning 0 runningTask "r" "e" (by decide)).1,
   (claim_c10_frame mRunning 0 runningTask "r" "e" (by decide)).2.2.2.2.1 1
     (by decide)⟩

theorem statusUpd_status (clk : Nat) (s : TaskStatus) (t : Task) :
    (statusUpd clk s t).status = s := by
  unfold statusUpd
  dsimp only
  split
  · rfl
  · split <;> rfl

theorem step_mutate (M : TaskManager) (id : Nat) (u : Task) (f : Task → Task)
    (hid : ∀ w, (f w).task_id = w.task_id)
    (hg : get_task M id = some u) (hc : M.current_task = some u)
    (hh : dictGet M.task_history id = some u) :
    get_task (mutateTask M id f) id = some (f u) ∧
    (mutateTask M id f).current_task = some (f u) ∧
    dictGet (mutateTask M id f).task_history id = some (f u) :=
  ⟨get_task_mutate_self hg f hid, mutate_current hc (get_task_id hg) f,
   dictGet_mutate_self hh f hid⟩

theorem update_status_step (M : TaskManager) (id : Nat) (u : Task)
    (s : TaskStatus) (hcond : s = TaskStatus.running ∨ s ∈ terminalStatuses)
    (hg : get_task M id = some u) (hc : M.current_task = some u)
    (hh : dictGet M.task_history id = some u) :
    get_task (update_status M id s).1 id = some (statusUpd M.clock s u) ∧
    (update_status M id s).1.current_task = some (statusUpd M.clock s u) ∧
    dictGet (update_status M id s).1.task_history id =
      some (statusUpd M.clock s u) := by
  have heq : (update_status M id s).1 =
      { mutateTask M id (statusUpd M.clock s) with clock := M.clock + 1 } := by
    simp only [update_status, hg]
    rw [if_pos hcond]
  rw [heq]
  exact step_mutate M id u _ (statusUpd_id _ _) hg hc hh

theorem update_progress_step (M : TaskManager) (id : Nat) (u : Task)
    (patch : List (String × String))
    (hg : get_task M id = some u) (hc : M.current_task = some u)
    (hh : dictGet M.task_history id = some u) :
    get_task (update_progress M id patch).1 id =
      some { u with progress := progUpdate u.progress patch } ∧
    (update_progress M id patch).1.current_task =
      some { u with progress := progUpdate u.progress patch } ∧
    dictGet (update_progress M id patch).1.task_history id =
      some { u with progress := progUpdate u.progress patch } := by
  have heq : (update_progress M id patch).1 = mutateTask M id
      (fun w => { w with progress := progUpdate w.progress patch }) := by
    simp only [update_progress, hg]
  rw [heq]
  exact step_mutate M id u _ (fun _ => rfl) hg hc hh

theorem complete_task_step (M : TaskManager) (id : Nat) (u : Task)
    (res : String)
    (hg : get_task M id = some u) (hc : M.current_task = some u)
    (hh : dictGet M.task_history id = some u) :
    get_task (complete_task M id res).1 id = some (completeUpd M.clock res u) ∧
    (complete_task M id res).1.current_task =
      some (completeUpd M.clock res u) ∧
    dictGet (complete_task M id res).1.task_history id =
      some (completeUpd M.clock res u) := by
  have heq : (complete_task M id res).1 =
      { mutateTask M id (completeUpd M.clock res) with clock := M.clock + 1 } := by
    simp only [complete_task, hg]
  rw [heq]
  exact step_mutate M id u _ (fun _ => rfl) hg hc hh

theorem fail_task_step (M : TaskManager) (id : Nat) (u : Task) (err : String)
    (hg : get_task M id = some u) (hc : M.current_task = some u)
    (hh : dictGet M.task_history id = some u) :
    get_task (fail_task M id err).1 id = some (failUpd M.clock err u) ∧
    (fail_task M id err).1.current_task = some (failUpd M.clock err u) ∧
    dictGet (fail_task M id err).1.task_history id =
      some (failUpd M.clock err u) := by
  have heq : (fail_task M id err).1 =
      { mutateTask M id (failUpd M.clock err) with clock := M.clock + 1 } := by
    simp only [fail_task, hg]
  rw [heq]
  exact step_mutate M id u _ (fun _ => rfl) hg hc hh

theorem clear_step (M : TaskManager) (id : Nat) (u : Task)
    (hterm : u.status ∈ terminalStatuses)
    (hc : M.current_task = some u) (hh : dictGet M.task_history id = some u) :
    get_task (clear_current_task M) id = some u ∧
    (clear_current_task M).current_task = none := by
  have heq : clear_current_task M = { M with current_task := none } := by
    simp only [clear_current_task, hc]
    rw [if_pos hterm]
  rw [heq]
  constructor
  · show dictGet M.task_history id = some u
    exact hh
  · rfl

/-- C3: `BaseTaskExecutor.execute` on an existing current task transitions it
to Completed with the returned result when the body succeeds, to Cancelled
when the body raises `OperationCancelledException`, and to Failed with the
error's description when the body raises anything else; in the latter two
cases the exception is swallowed (the caller sees a normal `None` return, not
an error); and in all three outcomes the current-task slot is released. -/
theorem claim_c3_execute (m : TaskManager) (id : Nat) (t : Task)
    (hget : get_task m id = some t)
    (hcur : m.current_task = some t)
    (hhist : dictGet m.task_history id = some t) :
    (∀ res, (execute m id (OpOutcome.success res)).2 = Except.ok (some res) ∧
      (get_task (execute m id (OpOutcome.success res)).1 id).map Task.status =
        some TaskStatus.completed ∧
      (get_task (execute m id (OpOutcome.success res)).1 id).map Task.result =
        some (some res) ∧
      (execute m id (OpOutcome.success res)).1.current_task = none) ∧
    (∀ msg, (execute m id (OpOutcome.cancelled msg)).2 = Except.ok none ∧
      (get_task (execute m id (OpOutcome.cancelled msg)).1 id).map Task.status =
        some TaskStatus.cancelled ∧
      (execute m id (OpOutcome.cancelled msg)).1.current_task = none) ∧
    (∀ msg, (execute m id (OpOutcome.failure msg)).2 = Except.ok none ∧
      (get_task (execute m id (OpOutcome.failure msg)).1 id).map Task.status =
        some TaskStatus.failed ∧
      (get_task (execute m id (OpOutcome.failure msg)).1 id).map Task.error =
        some (some msg) ∧
      (execute m id (OpOutcome.failure msg)).1.current_task = none) := by
  obtain ⟨hg1, hc1, hh1⟩ := update_status_step m id t TaskStatus.running
    (Or.inl rfl) hget hcur hhist
  obtain ⟨hg2, hc2, hh2⟩ := update_progress_step _ id _
    [("message", "Task execution started")] hg1 hc1 hh1
  refine ⟨?_, ?_, ?_⟩
  · intro res
    obtain ⟨hg3, hc3, hh3⟩ := complete_task_step _ id _ res hg2 hc2 hh2
    obtain ⟨hg4, hc4, hh4⟩ := update_progress_step _ id _
      [("message", "Task completed successfully")] hg3 hc3 hh3
    obtain ⟨hfin, hclr⟩ := clear_step _ id _
      (show TaskStatus.completed ∈ terminalStatuses by decide) hc4 hh4
    refine ⟨?_, ?_, ?_, ?_⟩
    · simp only [execute, hget]
    · simp only [execute, hget]
      rw [hfin]
      rfl
    · simp only [execute, hget]
      rw [hfin]
      rfl
    · simp only [execute, hget]
      rw [hclr]
  · intro msg
    obtain ⟨hg3, hc3, hh3⟩ := update_status_step _ id _ TaskStatus.cancelled
      (Or.inr (by decide)) hg2 hc2 hh2
    obtain ⟨hg4, hc4, hh4⟩ := update_progress_step _ id _
      [("message", "Task cancelled")] hg3 hc3 hh3
    obtain ⟨hfin, hclr⟩ := clear_step _ id _
      (show TaskStatus.cancelled ∈ terminalStatuses by decide) hc4 hh4
    refine ⟨?_, ?_, ?_⟩
    · simp only [execute, hget]
    · simp only [execute, hget]
      rw [hfin]
      rfl
    · simp only [execute, hget]
      rw [hclr]
  · intro msg
    obtain ⟨hg3, hc3, hh3⟩ := fail_task_step _ id _ msg hg2 hc2 hh2
    obtain ⟨hg4, hc4, hh4⟩ := update_progress_step _ id _
      [("message", "Task failed: " ++ msg)] hg3 hc3 hh3
    obtain ⟨hfin, hclr⟩ := clear_step _ id _
      (show TaskStatus.failed ∈ terminalStatuses by decide) hc4 hh4
    refine ⟨?_, ?_, ?_, ?_⟩
    · simp only [execute, hget]
    · simp only [execute, hget]
      rw [hfin]
      rfl
    · simp only [execute, hget]
      rw [hfin]
      rfl
    · simp only [execute, hget]
      rw [hclr]

theorem claim_c3_execute_witness :
    (execute mRunning 0 (OpOutcome.success "r")).2 = Except.ok (some "r") ∧
    (execute mRunning 0 (OpOutcome.cancelled "c")).1.current_task = none :=
  ⟨((claim_c3_execute mRunning 0 runningTask (by decide) (by decide)
      (by decide)).1 "r").1,
   ((claim_c3_execute mRunning 0 runningTask (by decide) (by decide)
      (by decide)).2.1 "c").2.2⟩

/-- C5, evaluated at the failing input: with the cancellation signal set at
the top of the poll loop, the axis-movement loop stops the hardware without
querying it and raises, the motion task layer converts the exception into
`OperationCancelledException`, and the task ends Cancelled; the
angle-adjustment loop likewise checks the signal first and stops the
hardware, but returns a `Cancelled` response that the angle-adjustment task
layer converts into a generic failure, so the task ends Failed (with the
cancellation text as its error) rather than Cancelled — refuting the claim
for the angle-adjustment operation body. -/
theorem claim_c5_cancellation_eval :
    (move_absolute_loop (fun _ => true) (fun _ => true) 1200 0 =
      (MoveRes.raised "Movement cancelled by user", [HwEvent.stopCall])) ∧
    (motion_outcome true
        (move_absolute_loop (fun _ => true) (fun _ => true) 1200 0).1 =
      OpOutcome.cancelled "Movement was cancelled: Movement cancelled by user") ∧
    ((get_task (execute mStopping 0 (motion_outcome true
        (move_absolute_loop (fun _ => true) (fun _ => true) 1200 0).1)).1 0).map
        Task.status = some TaskStatus.cancelled) ∧
    (angle_adjustment_loop (fun _ => true) (fun _ => AdjStatus.adjusting) 600 0 =
      ({ success := false, status_code := "Cancelled",
         error_message := some "Angle adjustment was cancelled" },
       [HwEvent.stopCall])) ∧
    (angle_adjustment_outcome true
        (some (angle_adjustment_loop (fun _ => true)
          (fun _ => AdjStatus.adjusting) 600 0).1) =
      OpOutcome.failure "Angle adjustment was cancelled") ∧
    ((get_task (execute mStopping 0 (angle_adjustment_outcome true
        (some (angle_adjustment_loop (fun _ => true)
          (fun _ => AdjStatus.adjusting) 600 0).1))).1 0).map Task.status =
      some TaskStatus.failed) ∧
    ((get_task (execute mStopping 0 (angle_adjustment_outcome true
        (some (angle_adjustment_loop (fun _ => true)
          (fun _ => AdjStatus.adjusting) 600 0).1))).1 0).map Task.error =
      some (some "Angle adjustment was cancelled")) := by
  have hm : move_absolute_loop (fun _ => true) (fun _ => true) 1200 0 =
      (MoveRes.raised "Movement cancelled by user", [HwEvent.stopCall]) := by
    simp [move_absolute_loop]
  have ha : angle_adjustment_loop (fun _ => true)
      (fun _ => AdjStatus.adjusting) 600 0 =
      ({ success := false, status_code := "Cancelled",
         error_message := some "Angle adjustment was cancelled" },
       [HwEvent.stopCall]) := by
    simp [angle_adjustment_loop]
  rw [hm, ha]
  decide

/-- C7, evaluated at the failing input: when the hardware never reports
completion, the axis-movement loop issues the hardware stop call and raises
at the wall-clock budget, and the task ends Failed with the timeout
description; the angle-adjustment loop instead returns its `Timeout` response
without ever issuing the stop call (no `Stop()` appears in its hardware
trace), even though the task still ends Failed with "Operation timed out" —
refuting the stop-before-failure part of the claim for angle adjustment. -/
theorem claim_c7_timeout_eval :
    ((move_absolute_loop (fun _ => false) (fun _ => true) 2 0).1 =
      MoveRes.raised "Movement timed out after 60s") ∧
    (HwEvent.stopCall ∈
      (move_absolute_loop (fun _ => false) (fun _ => true) 2 0).2) ∧
    ((get_task (execute mRunning 0 (motion_outcome false
        (move_absolute_loop (fun _ => false) (fun _ => true) 2 0).1)).1 0).map
        Task.status = some TaskStatus.failed) ∧
    ((get_task (execute mRunning 0 (motion_outcome false
        (move_absolute_loop (fun _ => false) (fun _ => true) 2 0).1)).1 0).map
        Task.error = some (some "Movement timed out after 60s")) ∧
    ((angle_adjustment_loop (fun _ => false)
        (fun _ => AdjStatus.adjusting) 2 0).1 =
      { success := false, status_code := "Timeout",
        error_message := some "Operation timed out" }) ∧
    (HwEvent.stopCall ∉
      (angle_adjustment_loop (fun _ => false)
        (fun _ => AdjStatus.adjusting) 2 0).2) ∧
    ((get_task (execute mRunning 0 (angle_adjustment_outcome false
        (some (angle_adjustment_loop (fun _ => false)
          (fun _ => AdjStatus.adjusting) 2 0).1))).1 0).map Task.status =
      some TaskStatus.failed) ∧
    ((get_task (execute mRunning 0 (angle_adjustment_outcome false
        (some (angle_adjustment_loop (fun _ => false)
          (fun _ => AdjStatus.adjusting) 2 0).1))).1 0).map Task.error =
      some (some "Operation timed out")) := by
  have hm1 : (move_absolute_loop (fun _ => false) (fun _ => true) 2 0).1 =
      MoveRes.raised "Movement timed out after 60s" := by
    simp [move_absolute_loop]
  have ha1 : (angle_adjustment_loop (fun _ => false)
      (fun _ => AdjStatus.adjusting) 2 0).1 =
      { success := false, status_code := "Timeout",
        error_message := some "Operation timed out" } := by
    simp [angle_adjustment_loop]
  refine ⟨hm1, ?_, ?_, ?_, ha1, ?_, ?_, ?_⟩
  · simp [move_absolute_loop]
  · rw [hm1]; decide
  · rw [hm1]; decide
  · simp [angle_adjustment_loop]
  · rw [ha1]; decide
  · rw [ha1]; decide

/-- C8: after every successful `create_task` on a well-formed registry the
history is within capacity, the newly created task is stored as current and
is present in the history (the non-terminal current task is never evicted);
under capacity nothing is evicted, at capacity the size stays exactly at
capacity, and any evicted entry is strictly older by `created_at` than every
retained entry; and concretely (Scenario E) with capacity 3, creating and
completing five tasks in sequence leaves exactly the three most recently
created tasks retrievable and the oldest two gone. -/
theorem claim_c8_history_eviction :
    (∀ (m : TaskManager) (op : OperationType) (d : Option String), Wf m →
      ∀ t, (create_task m op d).2 = Except.ok t →
        (create_task m op d).1.task_history.length ≤ m.max_history_size ∧
        ((create_task m op d).1.current_task = some t ∧
          t ∈ (create_task m op d).1.task_history) ∧
        (m.task_history.length < m.max_history_size →
          (create_task m op d).1.task_history = m.task_history ++ [t]) ∧
        (m.task_history.length = m.max_history_size →
          (create_task m op d).1.task_history.length = m.max_history_size) ∧
        (∀ u ∈ m.task_history, u ∉ (create_task m op d).1.task_history →
          ∀ v ∈ (create_task m op d).1.task_history,
            u.created_at < v.created_at)) ∧
    (get_task scenarioE 0 = none ∧ get_task scenarioE 1 = none ∧
      (get_task scenarioE 2).isSome ∧ (get_task scenarioE 3).isSome ∧
      (get_task scenarioE 4).isSome ∧
      scenarioE.task_history.map Task.task_id = [2, 3, 4]) := by
  constructor
  · intro m op d hwf t hok
    have hsplit : (create_task m op d).1 = add_to_history
        { m with
            current_task := some (newTask m op d),
            next_id := m.next_id + 1, clock := m.clock + 1 } (newTask m op d) ∧
        t = newTask m op d := by
      cases hcur : m.current_task with
      | none =>
        have hcreate : create_task m op d =
            (add_to_history
              { m with
                  current_task := some (newTask m op d),
                  next_id := m.next_id + 1, clock := m.clock + 1 }
              (newTask m op d),
             Except.ok (newTask m op d)) := by
          simp only [create_task, hcur]
        constructor
        · exact congrArg Prod.fst hcreate
        · have hsnd := congrArg Prod.snd hcreate
          rw [hok] at hsnd
          injection hsnd with hsnd
      | some c =>
        by_cases hact : c.status ∈ activeStatuses
        · exfalso
          have hcreate : create_task m op d =
              (m, Except.error RegErr.conflict) := by
            simp only [create_task, hcur, if_pos hact]
          have hsnd := congrArg Prod.snd hcreate
          rw [hok] at hsnd
          exact Except.noConfusion hsnd
        · have hcreate : create_task m op d =
              (add_to_history
                { m with
                    current_task := some (newTask m op d),
                    next_id := m.next_id + 1, clock := m.clock + 1 }
                (newTask m op d),
               Except.ok (newTask m op d)) := by
            simp only [create_task, hcur, if_neg hact]
          constructor
          · exact congrArg Prod.fst hcreate
          · have hsnd := congrArg Prod.snd hcreate
            rw [hok] at hsnd
            injection hsnd with hsnd
    obtain ⟨hs1, hs2⟩ := hsplit
    subst hs2
    rw [hs1]
    obtain ⟨hw1, hw2, hw3, hw4, hw5, hw6⟩ := hwf
    have hspec := add_to_history_spec
      { m with
          current_task := some (newTask m op d),
          next_id := m.next_id + 1, clock := m.clock + 1 } (newTask m op d)
      hw1 hw2 hw3 hw4
      (fun u hu => Nat.ne_of_lt (hw6 u hu))
      (fun u hu => hw5 u hu)
    refine ⟨hspec.2.1, ⟨?_, hspec.1⟩, hspec.2.2.1, hspec.2.2.2.1,
      hspec.2.2.2.2.1⟩
    rw [(add_to_history_frame _ _).1]
  · decide

theorem claim_c8_history_eviction_witness :
    Wf mDone ∧
    (create_task mDone OperationType.axis_movement none).1.task_history.length ≤
      mDone.max_history_size :=
  ⟨by decide,
   (claim_c8_history_eviction.1 mDone OperationType.axis_movement none
      (by decide) _ rfl).1⟩

end EW51
